import Mathlib

/-!
Verification of the image-analyzer core pipeline (src/app/analyzer.py).
The Python source is shallowly embedded: pixel planes are lists of rows of
natural numbers, Python floats are modelled by exact rationals (with the
floating square root, used only by the contrast/noise-pattern metrics,
abstracted as a context parameter), and Python's `round` (ties to even)
and `math.floor` / `int()` are modelled exactly on ℚ.
-/

namespace ImageAnalyzer

/-- Round a rational to the nearest integer, ties to even (the rounding rule of
Python's builtin `round`). -/
def roundHE (x : ℚ) : ℤ :=
  if x - ⌊x⌋ < 1/2 then ⌊x⌋
  else if 1/2 < x - ⌊x⌋ then ⌊x⌋ + 1
  else if 2 ∣ ⌊x⌋ then ⌊x⌋ else ⌊x⌋ + 1

/-- Python `round(x, n)`: round to `n` decimal digits, ties to even. -/
def roundTo (x : ℚ) (n : ℕ) : ℚ := (roundHE (x * 10 ^ n) : ℚ) / 10 ^ n

/-- analyzer.py line 15: `aspect_ratio = width / height if height != 0 else 0`. -/
def aspect_ratio (w h : ℕ) : ℚ := if h ≠ 0 then (w : ℚ) / h else 0

/-- analyzer.py line 189: the report field `aspect_ratio_decimal` is
`round(aspect_ratio, 4)`. -/
def aspect_ratio_decimal (w h : ℕ) : ℚ := roundTo (aspect_ratio w h) 4

/-- The continued-fraction loop of CPython's `Fraction.limit_denominator`
(the `while True` loop over state `p0, q0, p1, q1, n, d`, which breaks as soon
as the next denominator `q0 + a*q1` would exceed `max_denominator`).  The loop
variables are naturals because the analyzer only forms fractions of pixel
dimensions.  Structural fuel replaces `while True`; `none` models the
unreachable exhaustion/division-by-zero paths. -/
def sternLoop (maxd : ℕ) : ℕ → ℕ → ℕ → ℕ → ℕ → ℕ → ℕ → Option (ℕ × ℕ × ℕ × ℕ)
  | 0, _, _, _, _, _, _ => none
  | fuel + 1, p0, q0, p1, q1, n, d =>
    if d = 0 then none
    else if maxd < q0 + n / d * q1 then some (p0, q0, p1, q1)
    else sternLoop maxd fuel p1 q1 (p0 + n / d * p1) (q0 + n / d * q1) d (n % d)

/-- The final step of `limit_denominator`: with `k = (maxd - q0) // q1`, pick
the closer to `x` of `bound2 = p1/q1` (the last convergent) and
`bound1 = (p0 + k*p1)/(q0 + k*q1)` (the best semiconvergent), preferring
`bound2` on ties — exactly CPython's final comparison. -/
def chooseBound (x : ℚ) (maxd p0 q0 p1 q1 : ℕ) : ℚ :=
  if |(p1 : ℚ) / (q1 : ℚ) - x| ≤
      |((p0 + (maxd - q0) / q1 * p1 : ℕ) : ℚ) / ((q0 + (maxd - q0) / q1 * q1 : ℕ) : ℚ) - x|
  then (p1 : ℚ) / (q1 : ℚ)
  else ((p0 + (maxd - q0) / q1 * p1 : ℕ) : ℚ) / ((q0 + (maxd - q0) / q1 * q1 : ℕ) : ℚ)

/-- CPython's `Fraction.limit_denominator(maxd)` for a nonnegative rational:
returns the input unchanged when its reduced denominator is within the limit,
otherwise runs the continued-fraction loop and picks the closer of the last
convergent and the best semiconvergent. -/
def limit_denominator (x : ℚ) (maxd : ℕ) : ℚ :=
  if x.den ≤ maxd then x
  else
    match sternLoop maxd (x.den + 1) 0 1 1 0 x.num.toNat x.den with
    | none => x
    | some (p0, q0, p1, q1) => chooseBound x maxd p0 q0 p1 q1

/-- The invariant carried by the `limit_denominator` loop: the two current
convergents have determinant ±1, the original value is the slant mediant of
them weighted by the remaining tail (n, d), the denominators are within the
limit, and the tail fraction stays reduced. -/
def sternInv (x : ℚ) (maxd p0 q0 p1 q1 n d : ℕ) : Prop :=
  ((p1 : ℤ) * q0 - p0 * q1 = 1 ∨ (p1 : ℤ) * q0 - p0 * q1 = -1) ∧
  x * ((q1 : ℚ) * n + q0 * d) = (p1 : ℚ) * n + p0 * d ∧
  0 < q1 * n + q0 * d ∧
  q0 ≤ maxd ∧ q1 ≤ maxd ∧ Nat.gcd n d = 1

/-- analyzer.py lines 16-20: `aspect_ratio_simple` is
`f"{s.numerator}:{s.denominator}"` for
`s = Fraction(width, height).limit_denominator()` (default limit 10^6), and
`"Undefined"` when `height = 0` (ZeroDivisionError path). -/
def aspect_ratio_simple (w h : ℕ) : String :=
  if h = 0 then "Undefined"
  else
    let s := limit_denominator ((w : ℚ) / h) 1000000
    toString s.num ++ ":" ++ toString s.den

/-- analyzer.py line 23: `max_print_width = round(width / 300, 2)`.
The same formula is applied to the height on line 24. -/
def max_print_width (w : ℕ) : ℚ := roundTo ((w : ℚ) / 300) 2

/-- analyzer.py line 25: `max_print_width_rounded = math.floor(max_print_width)`. -/
def max_print_width_rounded (w : ℕ) : ℤ := ⌊max_print_width w⌋

/-- analyzer.py lines 63-66: the fixed catalog of common aspect ratios. -/
def common_aspect_ratios : List (ℕ × ℕ) :=
  [(1, 1), (3, 2), (4, 3), (5, 4), (16, 9), (7, 5), (5, 3), (3, 1), (2, 1)]

/-- The key used by `closest_aspect_ratio`: `abs(r[0] / r[1] - target)`. -/
def ratio_key (t : ℚ) (r : ℕ × ℕ) : ℚ := |(r.1 : ℚ) / r.2 - t|

/-- Python's `min(iterable, key=f)` on a nonempty list: the running best is
replaced only on a strict key decrease, so the first minimum wins. -/
def pyMin {α : Type} (f : α → ℚ) : α → List α → α
  | best, [] => best
  | best, r :: rs => pyMin f (if f r < f best then r else best) rs

/-- Python's `max(iterable, key=f)` on a nonempty list: the running best is
replaced only on a strict key increase, so the first maximum wins. -/
def pyMax {α : Type} (f : α → ℚ) : α → List α → α
  | best, [] => best
  | best, r :: rs => pyMax f (if f best < f r then r else best) rs

/-- analyzer.py lines 68-69: `closest_aspect_ratio(target)` is
`min(common_aspect_ratios, key=lambda r: abs(r[0] / r[1] - target))`. -/
def closest_aspect_ratio (t : ℚ) : ℕ × ℕ :=
  pyMin (ratio_key t) (1, 1) [(3, 2), (4, 3), (5, 4), (16, 9), (7, 5), (5, 3), (3, 1), (2, 1)]

/-- analyzer.py lines 74-80: `crop_fit_size(w, h, ratio)`.  Python's `int()`
on the nonnegative float targets is the floor. -/
def crop_fit_size (w h : ℕ) (r : ℕ × ℕ) : ℕ × ℕ :=
  let target_width : ℚ := (h : ℚ) * r.1 / r.2
  let target_height : ℚ := (w : ℚ) * r.2 / r.1
  if target_width ≤ (w : ℚ) then (⌊target_width⌋₊, h) else (w, ⌊target_height⌋₊)

/-- analyzer.py lines 87-90: the fixed scoring ranges. -/
def blur_range : ℚ × ℚ := (1000, 6000)

def noise_range : ℚ × ℚ := (0, 50)

def brightness_range : ℚ × ℚ := (100, 180)

def contrast_range : ℚ × ℚ := (30, 80)

/-- analyzer.py lines 92-99: `score_status(value, (low, high))`. -/
def score_status (value : ℚ) (r : ℚ × ℚ) : String :=
  if value < r.1 then "Low" else if r.2 < value then "High" else "Good"

/-! ### Pixel planes and sliding-window filters -/

/-- Pixel access into a row-major grayscale plane, PIL-style (x, y) order. -/
def getPx (g : List (List ℕ)) (x y : ℕ) : ℕ := (g.getD y []).getD x 0

/-- Clamped access modelling the edge-replicating `expand` that PIL's rank
filter applies before filtering: coordinates beyond the right/bottom edge are
clamped (the left/top clamp is the truncation of ℕ subtraction at the call
sites). -/
def getPxClamp (g : List (List ℕ)) (w h x y : ℕ) : ℕ :=
  getPx g (min x (w - 1)) (min y (h - 1))

/-- Insert into a sorted list (ascending). -/
def insertLe (a : ℕ) : List ℕ → List ℕ
  | [] => [a]
  | b :: bs => if a ≤ b then a :: b :: bs else b :: insertLe a bs

/-- Insertion sort, ascending: the sort inside PIL's rank filter. -/
def isort (l : List ℕ) : List ℕ := l.foldr insertLe []

/-- The 5×5 window around (x, y), with edge replication. -/
def window5 (g : List (List ℕ)) (w h x y : ℕ) : List ℕ :=
  ((List.range 5).map (fun dy => (List.range 5).map (fun dx =>
    getPxClamp g w h (x + dx - 2) (y + dy - 2)))).flatten

/-- PIL `MedianFilter(size=5)`: rank `5*5 // 2 = 12` of the ascending sorted
25-pixel window (element 12, 0-based, i.e. the median). -/
def median5 (g : List (List ℕ)) (w h x y : ℕ) : ℕ :=
  (isort (window5 g w h x y)).getD 12 0

/-- Absolute difference between a pixel and its 5×5-median-filtered value
(analyzer.py lines 138-139, `np.abs` of the int difference). -/
def diffAbs (g : List (List ℕ)) (w h x y : ℕ) : ℕ :=
  max (getPx g x y) (median5 g w h x y) - min (getPx g x y) (median5 g w h x y)

/-- analyzer.py lines 140-141: the number of pixels whose absolute difference
from the 5×5-median-filtered plane exceeds 20. -/
def spots_count (g : List (List ℕ)) (w h : ℕ) : ℕ :=
  ((List.range h).map (fun y =>
    (List.range w).countP (fun x => 20 < diffAbs g w h x y))).sum

/-- Context abstracting the IEEE-754 square root (`math.sqrt` inside
`ImageStat.stddev`, and the square root inside `np.std`): an arbitrary fixed
function ℚ → ℚ.  Every theorem below holds for every such function. -/
structure Ctx where
  sqrtQ : ℚ → ℚ

/-- scipy's 'reflect' boundary mode (the `generic_filter` default): reflection
about the array edge, periodic with period 2n. -/
def reflectIdx (n : ℕ) (i : ℤ) : ℕ :=
  if n = 0 then 0
  else
    let j := (i % (2 * n)).toNat
    if j < n then j else 2 * n - 1 - j

/-- The 7×7 neighborhood used by the noise-pattern heuristic, with reflected
boundary handling. -/
def window7 (g : List (List ℕ)) (w h x y : ℕ) : List ℕ :=
  ((List.range 7).map (fun dy => (List.range 7).map (fun dx =>
    getPx g (reflectIdx w ((x : ℤ) + dx - 3)) (reflectIdx h ((y : ℤ) + dy - 3))))).flatten

/-- Population variance of a list of intensities, as an exact rational. -/
def listVariance (l : List ℕ) : ℚ :=
  ((l.map (fun v => ((v : ℚ) - ((l.sum : ℕ) : ℚ) / l.length) ^ 2)).sum) / l.length

/-- `np.std` over the 7×7 window: the (abstracted) square root of the
population variance. -/
def local_std (ctx : Ctx) (g : List (List ℕ)) (w h x y : ℕ) : ℚ :=
  ctx.sqrtQ (listVariance (window7 g w h x y))

/-- analyzer.py lines 146-153: the mean over all pixels of the local 7×7
standard deviation. -/
def local_std_mean (ctx : Ctx) (g : List (List ℕ)) (w h : ℕ) : ℚ :=
  (((List.range h).map (fun y =>
    ((List.range w).map (fun x => local_std ctx g w h x y)).sum)).sum) / ((w * h : ℕ) : ℚ)

/-- analyzer.py lines 107-157: `detect_flaws`, producing the ordered flaw
list.  The thresholds are the captured score ranges; the dust rule counts
median-filter outliers; the noise-pattern rule combines the noise score with
the mean local standard deviation. -/
def detect_flaws (ctx : Ctx) (g : List (List ℕ)) (w h : ℕ)
    (blur_variance noise_level brightness contrast : ℚ) : List String :=
  (if blur_variance < blur_range.1 then ["Image appears blurry or out of focus."] else []) ++
  (if noise_range.2 < noise_level then
    ["Image has high noise/grain, which may affect print quality."] else []) ++
  (if brightness < brightness_range.1 then ["Image appears underexposed or too dark."] else []) ++
  (if brightness_range.2 < brightness then ["Image appears overexposed or too bright."] else []) ++
  (if contrast < contrast_range.1 then ["Image has low contrast and may appear flat."] else []) ++
  (if contrast_range.2 < contrast then
    ["Image has very high contrast; some details may be clipped."] else []) ++
  (if 10 < spots_count g w h then ["Possible dust spots detected on the image."] else []) ++
  (if noise_range.2 < noise_level ∧ 20 < local_std_mean ctx g w h then
    ["Noise pattern detected; image may have grainy or patterned noise."] else [])

/-- A synthetic test plane: 23×5, uniform intensity 100, with k single-pixel
anomalies of intensity 200 on row 2 at the odd columns 1, 3, ..., 2k-1. -/
def dust_img (k : ℕ) : List (List ℕ) :=
  (List.range 5).map (fun y => (List.range 23).map (fun x =>
    if y = 2 ∧ x % 2 = 1 ∧ x < 2 * k + 1 then 200 else 100))

/-! ### Scalar metrics -/

/-- `ImageStat.Stat.mean`: sum / count. -/
def stat_mean (l : List ℕ) : ℚ := ((l.sum : ℕ) : ℚ) / l.length

/-- `ImageStat.Stat.var`: `(sum2 - sum**2 / count) / count`. -/
def stat_var (l : List ℕ) : ℚ :=
  (((l.map (fun v => v * v)).sum : ℕ) : ℚ) / l.length
    - (((l.sum : ℕ) : ℚ) / l.length) ^ 2

/-- PIL `FIND_EDGES` at one pixel: 3×3 kernel (-1 everywhere, 8 at the
center), scale 1, offset 0, clipped to [0, 255]; border pixels are copied
unchanged from the source (ImagingFilter computes interior pixels only). -/
def find_edges_px (g : List (List ℕ)) (w h x y : ℕ) : ℕ :=
  if x = 0 ∨ y = 0 ∨ x + 1 = w ∨ y + 1 = h then getPx g x y
  else
    (min 255 (max 0
      (8 * (getPx g x y : ℤ) -
        ((getPx g (x - 1) (y - 1) : ℤ) + (getPx g x (y - 1) : ℤ) + (getPx g (x + 1) (y - 1) : ℤ) +
         (getPx g (x - 1) y : ℤ) + (getPx g (x + 1) y : ℤ) +
         (getPx g (x - 1) (y + 1) : ℤ) + (getPx g x (y + 1) : ℤ) + (getPx g (x + 1) (y + 1) : ℤ))))).toNat

/-- The FIND_EDGES plane of a w×h grayscale plane. -/
def find_edges (g : List (List ℕ)) (w h : ℕ) : List (List ℕ) :=
  (List.range h).map (fun y => (List.range w).map (fun x => find_edges_px g w h x y))

/-! ### Dominant color and ICC profile -/

/-- An RGB triple. -/
abbrev RGB := ℕ × ℕ × ℕ

/-- One step of histogram building: bump the count of color c, keeping
first-seen order. -/
def bumpColor (acc : List (ℕ × RGB)) (c : RGB) : List (ℕ × RGB) :=
  match acc with
  | [] => [(1, c)]
  | (n, c') :: rest => if c' = c then (n + 1, c') :: rest else (n, c') :: bumpColor rest c

/-- Color histogram of a pixel list, in first-seen order. -/
def countColors (pixels : List RGB) : List (ℕ × RGB) := pixels.foldl bumpColor []

/-- PIL `Image.getcolors(maxcolors)`: the (count, color) histogram, or `none`
when the image has more than `maxcolors` distinct colors. -/
def getcolors (pixels : List RGB) (maxcolors : ℕ) : Option (List (ℕ × RGB)) :=
  let cs := countColors pixels
  if maxcolors < cs.length then none else some cs

/-- analyzer.py lines 44-50, the try-block outcome: the color of maximal count
(Python's `max(colors, key=count)`, first maximum wins), or `none` on the
exception paths (`getcolors` returned `None`, or the color list is empty). -/
def dominant_color_result (resized : List RGB) : Option RGB :=
  match getcolors resized 2500 with
  | none => none
  | some [] => none
  | some (c :: cs) => some (pyMax (fun p => ((p.1 : ℕ) : ℚ)) c cs).2

/-- Python's `f"RGB{(r, g, b)}"` tuple formatting. -/
def format_rgb (c : RGB) : String :=
  "RGB(" ++ toString c.1 ++ ", " ++ toString c.2.1 ++ ", " ++ toString c.2.2 ++ ")"

/-- The report's dominant_color field: the formatted dominant color, or
"Unavailable" on any failure of the try-block. -/
def dominant_color_string (resized : List RGB) : String :=
  match dominant_color_result resized with
  | none => "Unavailable"
  | some c => format_rgb c

/-- analyzer.py lines 52-60: the color_profile field.  The PIL ICC parsing is
an external collaborator; its outcome is part of the decoded input: `none` =
no embedded profile, `some (ok name)` = parsed name, `some (error ())` =
`getProfileName` raised. -/
def color_profile_string (icc : Option (Except Unit String)) : String :=
  match icc with
  | none => "No embedded ICC profile (likely sRGB)"
  | some (Except.ok name) => name
  | some (Except.error _) => "Unknown or unsupported ICC profile"

/-! ### The decoded image and the report -/

/-- The decoded image as the core receives it (spec §3 PixelBuffer):
dimensions, the grayscale plane produced by `convert("L")`, the 50×50
resampled color pixels produced by `resize` (PIL resampling is an external
collaborator), and the embedded ICC-profile outcome. -/
structure DecodedImage where
  width : ℕ
  height : ℕ
  gray : List (List ℕ)
  resized : List RGB
  icc : Option (Except Unit String)

/-- One metric entry of the report: value, range, status, message. -/
structure MetricResult where
  value : ℚ
  range : ℚ × ℚ
  status : String
  message : String

/-- The precise print size in inches at 300 DPI. -/
structure PrintSizePrecise where
  width : ℚ
  height : ℚ
  dpi : ℕ

/-- The floor-rounded print size in inches at 300 DPI. -/
structure PrintSizeRounded where
  width : ℤ
  height : ℤ
  dpi : ℕ

/-- The crop_suggestion object of the report. -/
structure CropSuggestion where
  crop_width : ℕ
  crop_height : ℕ
  print_width : ℚ
  print_height : ℚ
  dpi : ℕ
  prompt : String

/-- The full analysis report (analyzer.py lines 185-246). -/
structure AnalysisReport where
  filename : String
  width_px : ℕ
  height_px : ℕ
  aspect_ratio_decimal : ℚ
  aspect_ratio_simple : String
  print_precise : PrintSizePrecise
  print_rounded : PrintSizeRounded
  blur_variance : MetricResult
  noise_level : MetricResult
  brightness : MetricResult
  contrast : MetricResult
  dominant_color : String
  color_profile : String
  closest_common_aspect_ratio : String
  crop_suggestion : CropSuggestion
  flaws_detected : List String
  suggested_improvements : List (String × String)
  explanation : String
  message : String

/-- Wrap a metric value and range into the report entry, with the status from
`score_status` and the f-string message. -/
def mkMetric (v : ℚ) (r : ℚ × ℚ) : MetricResult :=
  { value := v, range := r, status := score_status v r,
    message := toString v ++ " / Ideal: " ++ toString r.1 ++ "–" ++ toString r.2
      ++ " (" ++ score_status v r ++ ")" }

/-- analyzer.py lines 162-169: the fixed explanation text. -/
def explanation_text : String :=
  "Blur variance (edges/sharpness): higher is better. " ++
  "Noise level (grain): lower is better. " ++
  "Brightness (0-255): ideal range is 100–180. " ++
  "Contrast: under 30 may appear flat, over 80 may clip details. " ++
  "Dominant color impacts overall mood. " ++
  "You can optionally crop to a common aspect ratio for better print formats."

/-- analyzer.py lines 172-182: the fixed remedy mapping, always included in
full. -/
def suggested_improvements_text : List (String × String) :=
  [("blur", "Use sharpening filters (Photoshop: Filter > Sharpen > Unsharp Mask). " ++
    "In Lightroom, increase Clarity and Sharpening sliders."),
   ("noise", "Apply noise reduction (Photoshop: Filter > Noise > Reduce Noise). " ++
    "In Lightroom, use the Detail panel's Noise Reduction sliders."),
   ("brightness", "Adjust exposure or brightness (Photoshop: Image > Adjustments > Brightness/Contrast). " ++
    "In Lightroom, adjust Exposure slider."),
   ("contrast", "Use contrast adjustment (Photoshop: Image > Adjustments > Brightness/Contrast or Curves). " ++
    "In Lightroom, use Contrast and Tone Curve adjustments."),
   ("dust_spots", "Use Spot Healing Brush (Photoshop) or Spot Removal tool (Lightroom) to remove dust spots.")]

/-- analyzer.py lines 9-248: the full analysis pipeline as a pure function of
the context (abstract float square root), the decoded image, and the
filename. -/
def analyze_image (ctx : Ctx) (img : DecodedImage) (filename : String) : AnalysisReport :=
  let w := img.width
  let h := img.height
  let ar := aspect_ratio w h
  let blur_v := roundTo (stat_var ((find_edges img.gray w h).flatten)) 2
  let bright := roundTo (stat_mean img.gray.flatten) 2
  let contr := roundTo (ctx.sqrtQ (stat_var img.gray.flatten)) 2
  let noise := contr
  let closest := closest_aspect_ratio ar
  let closest_str := toString closest.1 ++ ":" ++ toString closest.2
  let crop := crop_fit_size w h closest
  { filename := filename,
    width_px := w,
    height_px := h,
    aspect_ratio_decimal := roundTo ar 4,
    aspect_ratio_simple := aspect_ratio_simple w h,
    print_precise := { width := max_print_width w, height := max_print_width h, dpi := 300 },
    print_rounded :=
      { width := max_print_width_rounded w, height := max_print_width_rounded h, dpi := 300 },
    blur_variance := mkMetric blur_v blur_range,
    noise_level := mkMetric noise noise_range,
    brightness := mkMetric bright brightness_range,
    contrast := mkMetric contr contrast_range,
    dominant_color := dominant_color_string img.resized,
    color_profile := color_profile_string img.icc,
    closest_common_aspect_ratio := closest_str,
    crop_suggestion :=
      { crop_width := crop.1, crop_height := crop.2,
        print_width := roundTo ((crop.1 : ℚ) / 300) 2,
        print_height := roundTo ((crop.2 : ℚ) / 300) 2,
        dpi := 300,
        prompt := "Would you like to crop to " ++ closest_str ++ "?" },
    flaws_detected := detect_flaws ctx img.gray w h blur_v noise bright contr,
    suggested_improvements := suggested_improvements_text,
    explanation := explanation_text,
    message := "Analysis complete" }

/-! ### Arithmetic facts about the rounding helpers -/

theorem roundHE_nat_div (a b : ℕ) (hb : 0 < b) :
    roundHE ((a : ℚ) / b) =
      if 2 * (a % b) < b then (a / b : ℕ)
      else if b < 2 * (a % b) then (a / b : ℕ) + 1
      else if 2 ∣ a / b then (a / b : ℕ) else (a / b : ℕ) + 1 := by
  have hbQ : (0 : ℚ) < b := by exact_mod_cast hb
  have hb0 : ((b : ℚ)) ≠ 0 := hbQ.ne'
  have key : ((b : ℚ)) * ((a / b : ℕ) : ℚ) + ((a % b : ℕ) : ℚ) = (a : ℚ) := by
    exact_mod_cast congrArg (fun t : ℕ => (t : ℚ)) (Nat.div_add_mod a b)
  have hfl : ⌊(a : ℚ) / b⌋ = ((a / b : ℕ) : ℤ) := Rat.floor_natCast_div_natCast a b
  have hfrac : (a : ℚ) / b - ((a / b : ℕ) : ℚ) = ((a % b : ℕ) : ℚ) / b := by
    field_simp
    linarith [key]
  have hfrac' : (a : ℚ) / b - (((a / b : ℕ) : ℤ) : ℚ) = ((a % b : ℕ) : ℚ) / b := by
    push_cast
    push_cast at hfrac
    exact hfrac
  have hlt : (((a % b : ℕ) : ℚ) / b < 1/2) ↔ 2 * (a % b) < b := by
    rw [div_lt_iff₀ hbQ]
    constructor
    · intro h
      have h2 : ((2 * (a % b) : ℕ) : ℚ) < (b : ℚ) := by push_cast; linarith
      exact_mod_cast h2
    · intro h
      have h2 : ((2 * (a % b) : ℕ) : ℚ) < (b : ℚ) := by exact_mod_cast h
      push_cast at h2
      linarith
  have hgt : ((1/2 : ℚ) < ((a % b : ℕ) : ℚ) / b) ↔ b < 2 * (a % b) := by
    rw [lt_div_iff₀ hbQ]
    constructor
    · intro h
      have h2 : (b : ℚ) < ((2 * (a % b) : ℕ) : ℚ) := by push_cast; linarith
      exact_mod_cast h2
    · intro h
      have h2 : (b : ℚ) < ((2 * (a % b) : ℕ) : ℚ) := by exact_mod_cast h
      push_cast at h2
      linarith
  have hdvd : ((2 : ℤ) ∣ ((a / b : ℕ) : ℤ)) ↔ 2 ∣ a / b := by norm_cast
  rw [roundHE, hfl, hfrac']
  simp only [hlt, hgt, hdvd]
  split_ifs with h1 h2 h3 <;> push_cast <;> ring

theorem roundHE_err (x : ℚ) : |(roundHE x : ℚ) - x| ≤ 1/2 := by
  have h1 : (⌊x⌋ : ℚ) ≤ x := Int.floor_le x
  have h2 : x < ⌊x⌋ + 1 := Int.lt_floor_add_one x
  rw [roundHE]
  by_cases hc1 : x - ⌊x⌋ < 1/2
  · rw [if_pos hc1, abs_le]
    constructor <;> push_cast <;> linarith
  · rw [if_neg hc1]
    by_cases hc2 : (1/2 : ℚ) < x - ⌊x⌋
    · rw [if_pos hc2, abs_le]
      constructor <;> push_cast <;> linarith
    · rw [if_neg hc2]
      have he : x - ⌊x⌋ = 1/2 := le_antisymm (not_lt.mp hc2) (not_lt.mp hc1)
      by_cases hc3 : 2 ∣ ⌊x⌋
      · rw [if_pos hc3, abs_le]
        constructor <;> push_cast <;> linarith
      · rw [if_neg hc3, abs_le]
        constructor <;> push_cast <;> linarith

theorem roundTo_err (x : ℚ) (n : ℕ) : |roundTo x n - x| ≤ 1 / (2 * 10 ^ n) := by
  have hp : (0 : ℚ) < 10 ^ n := by positivity
  have h := roundHE_err (x * 10 ^ n)
  rw [roundTo]
  have heq : (roundHE (x * 10 ^ n) : ℚ) / 10 ^ n - x
      = ((roundHE (x * 10 ^ n) : ℚ) - x * 10 ^ n) / 10 ^ n := by
    field_simp
    ring
  rw [heq, abs_div, abs_of_pos hp, div_le_div_iff₀ hp (by positivity)]
  calc |(roundHE (x * 10 ^ n) : ℚ) - x * 10 ^ n| * (2 * 10 ^ n)
      ≤ (1/2) * (2 * 10 ^ n) := by
        apply mul_le_mul_of_nonneg_right h (by positivity)
    _ = 1 * 10 ^ n := by ring

theorem roundHE_zero : roundHE 0 = 0 := by
  rw [roundHE]
  norm_num

theorem roundTo_zero (n : ℕ) : roundTo 0 n = 0 := by
  rw [roundTo]
  norm_num [roundHE_zero]

theorem roundHE_nat_div' (a b : ℕ) (hb : 0 < b) :
    roundHE ((a : ℚ) / b) =
      ((if 2 * (a % b) < b then a / b
        else if b < 2 * (a % b) then a / b + 1
        else if 2 ∣ a / b then a / b else a / b + 1 : ℕ) : ℤ) := by
  rw [roundHE_nat_div a b hb]
  all_goals split_ifs <;> push_cast <;> try ring

/-! ### C1: the aspect_ratio_decimal field -/

/-- C1 counterexample: the claim "aspect_ratio_decimal equals width/height
within floating tolerance 1e-9" fails at width 1, height 3: the report stores
`round(1/3, 4) = 0.3333`, which is 1/30000 away from 1/3. -/
theorem aspect_ratio_decimal_tol_counterexample :
    ¬ (|aspect_ratio_decimal 1 3 - (1 : ℚ) / 3| ≤ 1 / 1000000000) := by
  have h1 : aspect_ratio 1 3 = (1 : ℚ) / 3 := by
    rw [aspect_ratio]
    norm_num
  have h2 : ((1 : ℚ) / 3) * 10 ^ 4 = ((10000 : ℕ) : ℚ) / ((3 : ℕ) : ℚ) := by norm_num
  have h3 : roundHE (((10000 : ℕ) : ℚ) / ((3 : ℕ) : ℚ)) = 3333 := by
    rw [roundHE_nat_div 10000 3 (by norm_num)]
    norm_num
  have h4 : aspect_ratio_decimal 1 3 = 3333 / 10000 := by
    rw [aspect_ratio_decimal, h1, roundTo, h2, h3]
    norm_num
  rw [h4]
  intro hc
  rw [abs_le] at hc
  have h5 := hc.1
  norm_num at h5

/-- C1 (amended): for `height > 0` the report field `aspect_ratio_decimal` is
`width/height` rounded to 4 decimal places, hence within 1/20000 = 5e-5 of
`width/height` (not within 1e-9); for `height = 0` it is exactly 0 and
`aspect_ratio_simple` is "Undefined". -/
theorem aspect_ratio_decimal_spec (w h : ℕ) :
    (0 < h → aspect_ratio_decimal w h = roundTo ((w : ℚ) / h) 4 ∧
      |aspect_ratio_decimal w h - (w : ℚ) / h| ≤ 1 / 20000) ∧
    aspect_ratio_decimal w 0 = 0 ∧ aspect_ratio_simple w 0 = "Undefined" := by
  refine ⟨fun hh => ?_, ?_, ?_⟩
  · have h1 : aspect_ratio w h = (w : ℚ) / h := by
      rw [aspect_ratio, if_pos hh.ne']
    constructor
    · rw [aspect_ratio_decimal, h1]
    · rw [aspect_ratio_decimal, h1]
      calc |roundTo ((w : ℚ) / h) 4 - (w : ℚ) / h| ≤ 1 / (2 * 10 ^ 4) :=
            roundTo_err ((w : ℚ) / h) 4
        _ = 1 / 20000 := by norm_num
  · rw [aspect_ratio_decimal, aspect_ratio]
    norm_num [roundTo_zero]
  · simp [aspect_ratio_simple]

/-- C1 witness: the amended bound instantiated at a 1×3 image. -/
theorem aspect_ratio_decimal_spec_witness :
    |aspect_ratio_decimal 1 3 - (1 : ℚ) / 3| ≤ 1 / 20000 :=
  ((aspect_ratio_decimal_spec 1 3).1 (by norm_num)).2

/-! ### C2: the rounded_down print size -/

theorem c2_nat_carry (w : ℕ) :
    (if 2 * (w % 3) < 3 then w / 3
     else if 3 < 2 * (w % 3) then w / 3 + 1
     else if 2 ∣ w / 3 then w / 3 else w / 3 + 1) / 100
    = w / 300 + (if w % 300 = 299 then 1 else 0) := by
  split_ifs <;> omega

theorem max_print_width_eq (w : ℕ) :
    max_print_width w
      = (((if 2 * (w % 3) < 3 then w / 3
          else if 3 < 2 * (w % 3) then w / 3 + 1
          else if 2 ∣ w / 3 then w / 3 else w / 3 + 1 : ℕ) : ℤ) : ℚ) / 10 ^ 2 := by
  have h1 : ((w : ℚ) / 300) * 10 ^ 2 = ((w : ℕ) : ℚ) / ((3 : ℕ) : ℚ) := by
    field_simp
    ring
  rw [max_print_width, roundTo, h1, roundHE_nat_div' w 3 (by norm_num)]

theorem max_print_rounded_eq_nat (w : ℕ) :
    max_print_width_rounded w
      = ((w / 300 + (if w % 300 = 299 then 1 else 0) : ℕ) : ℤ) := by
  rw [max_print_width_rounded, max_print_width_eq w]
  rw [show ((10 : ℚ) ^ 2) = ((100 : ℕ) : ℚ) by norm_num]
  rw [Rat.floor_intCast_div_natCast, ← Int.natCast_div, c2_nat_carry w]

/-- C2 counterexample: the claim "rounded_down equals the integer floor of
width/300" fails at width 299: the code floors `round(299/300, 2) = 1.00`,
giving 1, while the floor of the exact quotient is 0. -/
theorem max_print_rounded_counterexample :
    max_print_width_rounded 299 ≠ ⌊(299 : ℚ) / 300⌋ := by
  have h5 : ⌊(299 : ℚ) / 300⌋ = ((0 : ℕ) : ℤ) := by
    rw [show ((299 : ℚ) / 300) = ((299 : ℕ) : ℚ) / ((300 : ℕ) : ℚ) by norm_num,
      Rat.floor_natCast_div_natCast]
    decide
  rw [max_print_rounded_eq_nat 299, h5]
  decide

/-- C2 (amended): the rounded_down print-size field is the floor of the
2-decimal-rounded precise value, which equals `⌊w/300⌋` except when
`w ≡ 299 (mod 300)`, where the rounding carries across the integer and the
field is `⌊w/300⌋ + 1`.  The same function is applied to width and height. -/
theorem max_print_rounded_amended (w : ℕ) :
    max_print_width_rounded w
      = ⌊(w : ℚ) / 300⌋ + (if w % 300 = 299 then 1 else 0) := by
  rw [max_print_rounded_eq_nat w]
  have h4 : ⌊(w : ℚ) / 300⌋ = ((w / 300 : ℕ) : ℤ) := by
    rw [show ((w : ℚ) / 300) = ((w : ℕ) : ℚ) / ((300 : ℕ) : ℚ) by push_cast; ring,
      Rat.floor_natCast_div_natCast]
    omega
  rw [h4]
  split_ifs <;> push_cast <;> ring

/-! ### C3: crop_fit_size -/

theorem catalog_pos : ∀ r ∈ common_aspect_ratios, 0 < r.1 ∧ 0 < r.2 := by decide

/-- C3 counterexample: the claim "exactly one of the two output dimensions
equals the corresponding input dimension" fails for a 100×100 source and the
catalog ratio 1:1, where the crop leaves both dimensions unchanged. -/
theorem crop_fit_exactly_one_counterexample :
    (1, 1) ∈ common_aspect_ratios ∧ crop_fit_size 100 100 (1, 1) = (100, 100) ∧
    ¬ (((crop_fit_size 100 100 (1, 1)).1 = 100 ∧ (crop_fit_size 100 100 (1, 1)).2 ≠ 100) ∨
       ((crop_fit_size 100 100 (1, 1)).1 ≠ 100 ∧ (crop_fit_size 100 100 (1, 1)).2 = 100)) := by
  have hev : crop_fit_size 100 100 (1, 1) = (100, 100) := by
    rw [crop_fit_size]
    norm_num
  refine ⟨by decide, hev, ?_⟩
  rw [hev]
  simp

/-- C3 (amended): for positive inputs and a catalog ratio, `crop_fit_size`
returns `(cw, ch)` with `cw ≤ w`, `ch ≤ h`, and at least one output dimension
equal to the corresponding input (both are equal when the source already has
the target ratio, so "exactly one" does not hold in general). -/
theorem crop_fit_size_spec (w h : ℕ) (r : ℕ × ℕ) (hw : 0 < w) (hh : 0 < h)
    (hr : r ∈ common_aspect_ratios) :
    (crop_fit_size w h r).1 ≤ w ∧ (crop_fit_size w h r).2 ≤ h ∧
    ((crop_fit_size w h r).1 = w ∨ (crop_fit_size w h r).2 = h) := by
  obtain ⟨hnum, hden⟩ := catalog_pos r hr
  have hnumQ : (0 : ℚ) < r.1 := by exact_mod_cast hnum
  have hdenQ : (0 : ℚ) < r.2 := by exact_mod_cast hden
  rw [crop_fit_size]
  by_cases hc : (h : ℚ) * r.1 / r.2 ≤ (w : ℚ)
  · rw [if_pos hc]
    refine ⟨?_, le_refl h, Or.inr rfl⟩
    have h1 : ⌊(h : ℚ) * r.1 / r.2⌋₊ ≤ ⌊(w : ℚ)⌋₊ := Nat.floor_le_floor hc
    simpa using h1
  · rw [if_neg hc]
    refine ⟨le_refl w, ?_, Or.inl rfl⟩
    push_neg at hc
    have h1 : (w : ℚ) * r.2 < (h : ℚ) * r.1 := by
      rw [lt_div_iff₀ hdenQ] at hc
      linarith
    have h2 : (w : ℚ) * r.2 / r.1 < (h : ℚ) := by
      rw [div_lt_iff₀ hnumQ]
      linarith
    have h3 : ⌊(w : ℚ) * r.2 / r.1⌋₊ ≤ ⌊(h : ℚ)⌋₊ := Nat.floor_le_floor h2.le
    simpa using h3

/-- C3 witness: the amended guarantees instantiated at a 30×20 source with
catalog ratio 3:2 (where the crop keeps both dimensions). -/
theorem crop_fit_size_spec_witness :
    (crop_fit_size 30 20 (3, 2)).1 ≤ 30 ∧ (crop_fit_size 30 20 (3, 2)).2 ≤ 20 ∧
    ((crop_fit_size 30 20 (3, 2)).1 = 30 ∨ (crop_fit_size 30 20 (3, 2)).2 = 20) :=
  crop_fit_size_spec 30 20 (3, 2) (by norm_num) (by norm_num) (by decide)

/-! ### score_status (C4) -/

theorem score_status_trichotomy (v low high : ℚ) (hle : low ≤ high) :
    (score_status v (low, high) = "Low" ↔ v < low) ∧
    (score_status v (low, high) = "High" ↔ high < v) ∧
    (score_status v (low, high) = "Good" ↔ low ≤ v ∧ v ≤ high) := by
  have hLH : ("Low" : String) ≠ "High" := by decide
  have hLG : ("Low" : String) ≠ "Good" := by decide
  have hHL : ("High" : String) ≠ "Low" := by decide
  have hHG : ("High" : String) ≠ "Good" := by decide
  have hGL : ("Good" : String) ≠ "Low" := by decide
  have hGH : ("Good" : String) ≠ "High" := by decide
  rw [score_status]
  by_cases h1 : v < low
  · rw [if_pos h1]
    exact ⟨iff_of_true rfl h1,
      iff_of_false hLH (not_lt.mpr (by linarith)),
      iff_of_false hLG (fun hc => absurd h1 (not_lt.mpr hc.1))⟩
  · rw [if_neg h1]
    by_cases h2 : high < v
    · rw [if_pos h2]
      exact ⟨iff_of_false hHL h1,
        iff_of_true rfl h2,
        iff_of_false hHG (fun hc => absurd h2 (not_lt.mpr hc.2))⟩
    · rw [if_neg h2]
      exact ⟨iff_of_false hGL h1,
        iff_of_false hGH h2,
        iff_of_true rfl ⟨not_lt.mp h1, not_lt.mp h2⟩⟩

/-! ### pyMin and the catalog lookup (C6) -/

theorem pyMin_spec {α : Type} (f : α → ℚ) :
    ∀ (l : List α) (b : α),
      (pyMin f b l = b ∧ ∀ x ∈ l, f b ≤ f x) ∨
      (∃ l1 l2, l = l1 ++ pyMin f b l :: l2 ∧ f (pyMin f b l) < f b ∧
        (∀ x ∈ l1, f (pyMin f b l) < f x) ∧
        (∀ x ∈ l, f (pyMin f b l) ≤ f x)) := by
  intro l
  induction l with
  | nil =>
    intro b
    left
    exact ⟨rfl, by simp⟩
  | cons r rs ih =>
    intro b
    rw [pyMin]
    by_cases hfr : f r < f b
    · rw [if_pos hfr]
      rcases ih r with ⟨h0, hall⟩ | ⟨l1, l2, heq, hlt, hbefore, hmin⟩
      · right
        refine ⟨[], rs, by rw [h0]; rfl, by rw [h0]; exact hfr, by simp, ?_⟩
        intro x hx
        rw [h0]
        rcases List.mem_cons.mp hx with rfl | hx'
        · exact le_refl _
        · exact hall x hx'
      · right
        refine ⟨r :: l1, l2, by rw [List.cons_append, ← heq], lt_trans hlt hfr, ?_, ?_⟩
        · intro x hx
          rcases List.mem_cons.mp hx with rfl | hx'
          · exact hlt
          · exact hbefore x hx'
        · intro x hx
          rcases List.mem_cons.mp hx with rfl | hx'
          · exact hlt.le
          · exact hmin x hx'
    · rw [if_neg hfr]
      push_neg at hfr
      rcases ih b with ⟨h0, hall⟩ | ⟨l1, l2, heq, hlt, hbefore, hmin⟩
      · left
        refine ⟨h0, ?_⟩
        intro x hx
        rcases List.mem_cons.mp hx with rfl | hx'
        · exact hfr
        · exact hall x hx'
      · right
        refine ⟨r :: l1, l2, by rw [List.cons_append, ← heq], hlt, ?_, ?_⟩
        · intro x hx
          rcases List.mem_cons.mp hx with rfl | hx'
          · exact lt_of_lt_of_le hlt hfr
          · exact hbefore x hx'
        · intro x hx
          rcases List.mem_cons.mp hx with rfl | hx'
          · exact (lt_of_lt_of_le hlt hfr).le
          · exact hmin x hx'

/-- C6: `closest_aspect_ratio` returns an element of the fixed catalog whose
ratio minimizes the distance to the target, and every catalog entry listed
before the returned one has a strictly larger key, so on ties the entry first
in catalog order wins (Python's `min` keeps the first minimum). -/
theorem closest_aspect_ratio_spec (t : ℚ) :
    ∃ l1 l2, common_aspect_ratios = l1 ++ closest_aspect_ratio t :: l2 ∧
      (∀ r ∈ common_aspect_ratios, ratio_key t (closest_aspect_ratio t) ≤ ratio_key t r) ∧
      (∀ r ∈ l1, ratio_key t (closest_aspect_ratio t) < ratio_key t r) := by
  rcases pyMin_spec (ratio_key t)
      [(3, 2), (4, 3), (5, 4), (16, 9), (7, 5), (5, 3), (3, 1), (2, 1)] (1, 1) with
    ⟨h0, hall⟩ | ⟨l1, l2, heq, hlt, hbefore, hmin⟩
  · refine ⟨[], [(3, 2), (4, 3), (5, 4), (16, 9), (7, 5), (5, 3), (3, 1), (2, 1)], ?_, ?_, by simp⟩
    · rw [common_aspect_ratios, closest_aspect_ratio, h0]
      rfl
    · intro r hr
      rw [closest_aspect_ratio, h0]
      rcases List.mem_cons.mp hr with rfl | hr'
      · exact le_refl _
      · exact hall r hr'
  · refine ⟨(1, 1) :: l1, l2, ?_, ?_, ?_⟩
    · rw [common_aspect_ratios, closest_aspect_ratio, List.cons_append, ← heq]
    · intro r hr
      rw [closest_aspect_ratio]
      rcases List.mem_cons.mp hr with rfl | hr'
      · exact hlt.le
      · exact hmin r hr'
    · intro r hr
      rw [closest_aspect_ratio]
      rcases List.mem_cons.mp hr with rfl | hr'
      · exact hlt
      · exact hbefore r hr'

/-! ### Exact reduction for realistic dimensions (C10) -/

theorem rat_natDiv_num_den (w h : ℕ) (hh : 0 < h) :
    ((w : ℚ) / h).num = ((w / Nat.gcd w h : ℕ) : ℤ)
      ∧ ((w : ℚ) / h).den = h / Nat.gcd w h := by
  set g := Nat.gcd w h with hgdef
  have hg0 : 0 < g := Nat.gcd_pos_of_pos_right w hh
  have hcop : Nat.Coprime (w / g) (h / g) := Nat.coprime_div_gcd_div_gcd hg0
  obtain ⟨w', hw'⟩ : g ∣ w := Nat.gcd_dvd_left w h
  obtain ⟨h', hh'⟩ : g ∣ h := Nat.gcd_dvd_right w h
  have hwq : w / g = w' := by
    rw [hw']
    exact Nat.mul_div_cancel_left w' hg0
  have hhq : h / g = h' := by
    rw [hh']
    exact Nat.mul_div_cancel_left h' hg0
  rw [hwq, hhq] at hcop ⊢
  have hpos' : 0 < h' := by
    rcases Nat.eq_zero_or_pos h' with h0 | hpos
    · subst h0
      rw [Nat.mul_zero] at hh'
      omega
    · exact hpos
  have hb0 : (0 : ℤ) < (h' : ℤ) := by exact_mod_cast hpos'
  have hrw : (w : ℚ) / h = ((w' : ℤ) : ℚ) / ((h' : ℤ) : ℚ) := by
    rw [hw', hh']
    push_cast
    rw [mul_div_mul_left]
    exact_mod_cast hg0.ne'
  constructor
  · rw [hrw]
    exact_mod_cast @Rat.num_div_eq_of_coprime (w' : ℤ) (h' : ℤ) hb0 (by simpa using hcop)
  · rw [hrw]
    have hden := @Rat.den_div_eq_of_coprime (w' : ℤ) (h' : ℤ) hb0 (by simpa using hcop)
    simpa using hden

theorem limit_denominator_id (x : ℚ) (maxd : ℕ) (h : x.den ≤ maxd) :
    limit_denominator x maxd = x := by
  rw [limit_denominator, if_pos h]

/-- C10: for positive dimensions whose reduced fraction has denominator within
the 10^6 limit of `limit_denominator`, `aspect_ratio_simple` is exactly the
fully reduced "p:q" — the rational approximation is exact for such inputs. -/
theorem aspect_ratio_simple_exact (w h : ℕ) (hw : 0 < w) (hh : 0 < h)
    (hden : h / Nat.gcd w h ≤ 1000000) :
    aspect_ratio_simple w h
      = toString (w / Nat.gcd w h : ℕ) ++ ":" ++ toString (h / Nat.gcd w h : ℕ) := by
  obtain ⟨hnum, hden'⟩ := rat_natDiv_num_den w h hh
  rw [aspect_ratio_simple, if_neg hh.ne']
  rw [limit_denominator_id _ _ (by rw [hden']; exact hden)]
  show toString ((w : ℚ) / h).num ++ ":" ++ toString ((w : ℚ) / h).den = _
  rw [hnum, hden']
  rfl

/-- C10 witness: a 3000×2000 image reduces exactly to "3:2". -/
theorem aspect_ratio_simple_exact_witness :
    aspect_ratio_simple 3000 2000
      = toString (3000 / Nat.gcd 3000 2000 : ℕ) ++ ":" ++ toString (2000 / Nat.gcd 3000 2000 : ℕ) :=
  aspect_ratio_simple_exact 3000 2000 (by norm_num) (by norm_num) (by norm_num)

/-! ### The status invariant on the pipeline metrics (C4) -/

/-- C4: every MetricResult the pipeline produces (blur_variance, noise_level,
brightness, contrast) satisfies the status invariant: status = "Low" iff
value < low, "High" iff value > high, and "Good" otherwise — in particular a
value equal to a boundary is "Good". -/
theorem metric_status_invariant (ctx : Ctx) (img : DecodedImage) (fn : String) :
    ∀ m ∈ [(analyze_image ctx img fn).blur_variance,
           (analyze_image ctx img fn).noise_level,
           (analyze_image ctx img fn).brightness,
           (analyze_image ctx img fn).contrast],
      (m.status = "Low" ↔ m.value < m.range.1) ∧
      (m.status = "High" ↔ m.range.2 < m.value) ∧
      (m.status = "Good" ↔ m.range.1 ≤ m.value ∧ m.value ≤ m.range.2) := by
  intro m hm
  simp only [List.mem_cons, List.not_mem_nil, or_false] at hm
  rcases hm with rfl | rfl | rfl | rfl
  · exact score_status_trichotomy ((analyze_image ctx img fn).blur_variance.value)
      1000 6000 (by norm_num)
  · exact score_status_trichotomy ((analyze_image ctx img fn).noise_level.value)
      0 50 (by norm_num)
  · exact score_status_trichotomy ((analyze_image ctx img fn).brightness.value)
      100 180 (by norm_num)
  · exact score_status_trichotomy ((analyze_image ctx img fn).contrast.value)
      30 80 (by norm_num)

/-- C4 witness: the invariant instantiated at the blur_variance entry of a
concrete 1×1 image's report. -/
theorem metric_status_invariant_witness :
    ((analyze_image ⟨fun _ => 0⟩ ⟨1, 1, [[100]], [(0, 0, 0)], none⟩ "a").blur_variance.status = "Low"
        ↔ (analyze_image ⟨fun _ => 0⟩ ⟨1, 1, [[100]], [(0, 0, 0)], none⟩ "a").blur_variance.value
          < (analyze_image ⟨fun _ => 0⟩ ⟨1, 1, [[100]], [(0, 0, 0)], none⟩ "a").blur_variance.range.1) ∧
    ((analyze_image ⟨fun _ => 0⟩ ⟨1, 1, [[100]], [(0, 0, 0)], none⟩ "a").blur_variance.status = "High"
        ↔ (analyze_image ⟨fun _ => 0⟩ ⟨1, 1, [[100]], [(0, 0, 0)], none⟩ "a").blur_variance.range.2
          < (analyze_image ⟨fun _ => 0⟩ ⟨1, 1, [[100]], [(0, 0, 0)], none⟩ "a").blur_variance.value) ∧
    ((analyze_image ⟨fun _ => 0⟩ ⟨1, 1, [[100]], [(0, 0, 0)], none⟩ "a").blur_variance.status = "Good"
        ↔ (analyze_image ⟨fun _ => 0⟩ ⟨1, 1, [[100]], [(0, 0, 0)], none⟩ "a").blur_variance.range.1
            ≤ (analyze_image ⟨fun _ => 0⟩ ⟨1, 1, [[100]], [(0, 0, 0)], none⟩ "a").blur_variance.value
          ∧ (analyze_image ⟨fun _ => 0⟩ ⟨1, 1, [[100]], [(0, 0, 0)], none⟩ "a").blur_variance.value
            ≤ (analyze_image ⟨fun _ => 0⟩ ⟨1, 1, [[100]], [(0, 0, 0)], none⟩ "a").blur_variance.range.2) :=
  metric_status_invariant ⟨fun _ => 0⟩ ⟨1, 1, [[100]], [(0, 0, 0)], none⟩ "a"
    _ (List.mem_cons_self _ _)

/-! ### Dust spots (C7) -/

theorem mem_ite_singleton {c : Prop} [Decidable c] (a b : String) :
    (a ∈ if c then [b] else []) ↔ (c ∧ a = b) := by
  split_ifs with hc
  · simp [hc]
  · simp [hc]

theorem dust_mem_iff (ctx : Ctx) (g : List (List ℕ)) (w h : ℕ) (bv nl br ct : ℚ) :
    ("Possible dust spots detected on the image." ∈ detect_flaws ctx g w h bv nl br ct
      ↔ 10 < spots_count g w h) := by
  rw [detect_flaws]
  simp only [List.mem_append, mem_ite_singleton]
  constructor
  · rintro (((((((⟨_, hs⟩ | ⟨_, hs⟩) | ⟨_, hs⟩) | ⟨_, hs⟩) | ⟨_, hs⟩) | ⟨_, hs⟩) |
      ⟨hc, _⟩) | ⟨_, hs⟩)
    all_goals first
      | exact hc
      | exact absurd hs (by decide)
  · intro hc
    exact Or.inl (Or.inr ⟨hc, trivial⟩)

/-- C7: the dust-spot flaw fires exactly when the number of pixels whose
absolute difference from the 5×5-median-filtered plane exceeds 20 is strictly
greater than 10; in particular a uniform image with exactly 11 single-pixel
anomalies is flagged and one with exactly 10 is not. -/
theorem dust_spot_threshold (ctx : Ctx) (g : List (List ℕ)) (w h : ℕ)
    (bv nl br ct : ℚ) :
    ("Possible dust spots detected on the image." ∈ detect_flaws ctx g w h bv nl br ct
      ↔ 10 < spots_count g w h) ∧
    spots_count (dust_img 11) 23 5 = 11 ∧
    "Possible dust spots detected on the image."
      ∈ detect_flaws ctx (dust_img 11) 23 5 bv nl br ct ∧
    spots_count (dust_img 10) 23 5 = 10 ∧
    "Possible dust spots detected on the image."
      ∉ detect_flaws ctx (dust_img 10) 23 5 bv nl br ct := by
  have h11 : spots_count (dust_img 11) 23 5 = 11 := by decide
  have h10 : spots_count (dust_img 10) 23 5 = 10 := by decide
  refine ⟨dust_mem_iff ctx g w h bv nl br ct, h11, ?_, h10, ?_⟩
  · exact (dust_mem_iff ctx (dust_img 11) 23 5 bv nl br ct).mpr (by rw [h11]; norm_num)
  · intro hmem
    have hgt := (dust_mem_iff ctx (dust_img 10) 23 5 bv nl br ct).mp hmem
    rw [h10] at hgt
    exact absurd hgt (by norm_num)

/-! ### Dominant-color failure isolation (C8) -/

/-- C8: when the dominant-color computation fails (its try-block yields no
color — e.g. `getcolors` exceeded the 2500-color cap), the report field is
exactly "Unavailable", and the outcome of the dominant-color computation has
no effect on any other field of the report. -/
theorem dominant_color_failure_isolated (ctx : Ctx) (img : DecodedImage) (fn : String)
    (hfail : dominant_color_result img.resized = none) :
    (analyze_image ctx img fn).dominant_color = "Unavailable" ∧
    ∀ r2 : List RGB,
      { analyze_image ctx { img with resized := r2 } fn with dominant_color := "" }
        = { analyze_image ctx img fn with dominant_color := "" } := by
  constructor
  · show dominant_color_string img.resized = "Unavailable"
    rw [dominant_color_string, hfail]
  · intro r2
    rfl

/-- C8 witness: a resized plane on which the try-block fails (empty color
list, so Python's `max` raises), at a concrete 1×1 image. -/
theorem dominant_color_failure_isolated_witness :
    (analyze_image ⟨fun _ => 0⟩ ⟨1, 1, [[100]], [], none⟩ "a").dominant_color
      = "Unavailable" :=
  (dominant_color_failure_isolated ⟨fun _ => 0⟩ ⟨1, 1, [[100]], [], none⟩ "a" rfl).1

/-! ### Determinism (C9) -/

/-- C9: the pipeline is a pure function of the decoded buffer and the
filename (for a fixed float square root): two invocations on equal inputs
yield identical reports — there is no hidden state and no randomness in the
embedding, every analysis step being a function. -/
theorem analyze_image_deterministic (ctx : Ctx) (img1 img2 : DecodedImage)
    (f1 f2 : String) (himg : img1 = img2) (hf : f1 = f2) :
    analyze_image ctx img1 f1 = analyze_image ctx img2 f2 := by
  rw [himg, hf]

/-- C9 witness: repeated invocation on a concrete 1×1 buffer. -/
theorem analyze_image_deterministic_witness :
    analyze_image ⟨fun _ => 0⟩ ⟨1, 1, [[100]], [(0, 0, 0)], none⟩ "a"
      = analyze_image ⟨fun _ => 0⟩ ⟨1, 1, [[100]], [(0, 0, 0)], none⟩ "a" :=
  analyze_image_deterministic ⟨fun _ => 0⟩ _ _ _ _ rfl rfl

/-! ### Best rational approximation: the limit_denominator loop (C5) -/

theorem rat_eq_of_coprime_mul (x : ℚ) (p q : ℕ) (hq : 0 < q)
    (hco : Nat.Coprime p q) (h : x * q = p) : x.num = p ∧ x.den = q := by
  have hq0 : (0 : ℤ) < (q : ℤ) := by exact_mod_cast hq
  have hqQ : ((q : ℤ) : ℚ) ≠ 0 := by
    push_cast
    exact_mod_cast hq.ne'
  have hy : x = ((p : ℤ) : ℚ) / ((q : ℤ) : ℚ) := by
    rw [eq_div_iff hqQ]
    push_cast
    push_cast at h
    linarith
  constructor
  · rw [hy]
    exact_mod_cast @Rat.num_div_eq_of_coprime (p : ℤ) (q : ℤ) hq0 (by simpa using hco)
  · rw [hy]
    have hd := @Rat.den_div_eq_of_coprime (p : ℤ) (q : ℤ) hq0 (by simpa using hco)
    simpa using hd

theorem coprime_of_det (p1 q1 p0 q0 : ℕ)
    (h : (p1 : ℤ) * q0 - p0 * q1 = 1 ∨ (p1 : ℤ) * q0 - p0 * q1 = -1) :
    Nat.Coprime p1 q1 := by
  have hdvd : ((Nat.gcd p1 q1 : ℕ) : ℤ) ∣ (p1 : ℤ) * q0 - p0 * q1 := by
    apply dvd_sub
    · exact Dvd.dvd.mul_right (Int.natCast_dvd_natCast.mpr (Nat.gcd_dvd_left p1 q1)) _
    · exact Dvd.dvd.mul_left (Int.natCast_dvd_natCast.mpr (Nat.gcd_dvd_right p1 q1)) _
  have h1 : ((Nat.gcd p1 q1 : ℕ) : ℤ) ∣ 1 := by
    rcases h with h | h
    · rw [h] at hdvd
      exact hdvd
    · rw [h] at hdvd
      exact dvd_neg.mp hdvd
  have h2 : Nat.gcd p1 q1 ∣ 1 := by exact_mod_cast h1
  exact Nat.dvd_one.mp h2

theorem sternInv_base (x : ℚ) (maxd : ℕ) (hx : 0 ≤ x) (hmd : 1 ≤ maxd) :
    sternInv x maxd 0 1 1 0 x.num.toNat x.den := by
  have hnum : (0 : ℤ) ≤ x.num := Rat.num_nonneg.mpr hx
  have hcast : ((x.num.toNat : ℕ) : ℚ) = ((x.num : ℤ) : ℚ) := by
    exact_mod_cast congrArg (fun z : ℤ => (z : ℚ)) (Int.toNat_of_nonneg hnum)
  refine ⟨Or.inl (by norm_num), ?_, ?_, hmd, Nat.zero_le maxd, ?_⟩
  · have hmul : x * ((x.den : ℕ) : ℚ) = ((x.num : ℤ) : ℚ) := by
      have hnds := Rat.num_div_den x
      have hdQ : ((x.den : ℕ) : ℚ) ≠ 0 := by
        exact_mod_cast x.den_nz
      rw [div_eq_iff hdQ] at hnds
      linarith [hnds]
    push_cast
    push_cast at hmul hcast
    linarith
  · simpa using Nat.pos_of_ne_zero x.den_nz
  · have habs : x.num.toNat = x.num.natAbs := by omega
    rw [habs]
    exact x.reduced

theorem sternInv_step (x : ℚ) (maxd p0 q0 p1 q1 n d : ℕ) (hd : d ≠ 0)
    (hinv : sternInv x maxd p0 q0 p1 q1 n d)
    (hq2 : q0 + n / d * q1 ≤ maxd) :
    sternInv x maxd p1 q1 (p0 + n / d * p1) (q0 + n / d * q1) d (n % d) := by
  obtain ⟨hdet, heq, hpos, hq0, hq1, hgcd⟩ := hinv
  have hnd : d * (n / d) + n % d = n := Nat.div_add_mod n d
  refine ⟨?_, ?_, ?_, hq1, hq2, ?_⟩
  · have hflip : ((p0 + n / d * p1 : ℕ) : ℤ) * q1 - (p1 : ℤ) * ((q0 + n / d * q1 : ℕ) : ℤ)
        = -((p1 : ℤ) * q0 - (p0 : ℤ) * q1) := by
      push_cast
      ring
    rcases hdet with h | h
    · right
      rw [hflip, h]
    · left
      rw [hflip, h]
      norm_num
  · have hr : ((n % d : ℕ) : ℚ) = (n : ℚ) - (d : ℚ) * ((n / d : ℕ) : ℚ) := by
      have := congrArg (fun t : ℕ => (t : ℚ)) hnd
      push_cast at this
      linarith
    push_cast
    push_cast at heq hr
    rw [hr]
    ring_nf
    ring_nf at heq
    linarith [heq]
  · have hsame : (q0 + n / d * q1) * d + q1 * (n % d) = q1 * n + q0 * d := by
      conv_rhs => rw [← hnd]
      ring
    rw [hsame]
    exact hpos
  · have hsame : Nat.gcd d (n % d) = Nat.gcd n d := by
      rw [Nat.gcd_comm d (n % d), ← Nat.gcd_rec d n, Nat.gcd_comm d n]
    rw [hsame]
    exact hgcd

theorem sternLoop_sound (maxd : ℕ) (x : ℚ) (hmd : 1 ≤ maxd) (hbig : maxd < x.den) :
    ∀ fuel p0 q0 p1 q1 n d, d < fuel → sternInv x maxd p0 q0 p1 q1 n d →
      ∃ P0 Q0 P1 Q1, sternLoop maxd fuel p0 q0 p1 q1 n d = some (P0, Q0, P1, Q1) ∧
        ∃ n' d', 0 < d' ∧ sternInv x maxd P0 Q0 P1 Q1 n' d' ∧
          maxd < Q0 + n' / d' * Q1 := by
  intro fuel
  induction fuel with
  | zero =>
    intro p0 q0 p1 q1 n d hfd _
    exact absurd hfd (Nat.not_lt_zero d)
  | succ fuel ih =>
    intro p0 q0 p1 q1 n d hfd hinv
    rw [sternLoop]
    by_cases hd : d = 0
    · exfalso
      subst hd
      obtain ⟨hdet, heq, hpos, hq0, hq1, hgcd⟩ := hinv
      have hn1 : n = 1 := by simpa using hgcd
      subst hn1
      have hq1pos : 0 < q1 := by simpa using hpos
      have heq' : x * (q1 : ℚ) = (p1 : ℚ) := by
        push_cast at heq
        linarith
      have hco : Nat.Coprime p1 q1 := coprime_of_det p1 q1 p0 q0 hdet
      obtain ⟨hxn, hxd⟩ := rat_eq_of_coprime_mul x p1 q1 hq1pos hco heq'
      omega
    · rw [if_neg hd]
      by_cases hbr : maxd < q0 + n / d * q1
      · rw [if_pos hbr]
        exact ⟨p0, q0, p1, q1, rfl, n, d, Nat.pos_of_ne_zero hd, hinv, hbr⟩
      · rw [if_neg hbr]
        have hstep := sternInv_step x maxd p0 q0 p1 q1 n d hd hinv (not_lt.mp hbr)
        have hmod : n % d < d := Nat.mod_lt n (Nat.pos_of_ne_zero hd)
        exact ih p1 q1 (p0 + n / d * p1) (q0 + n / d * q1) d (n % d) (by omega) hstep

theorem farey_gap (Ln : ℤ) (Ld : ℕ) (Rn : ℤ) (Rd : ℕ) (hLd : 0 < Ld) (hRd : 0 < Rd)
    (hdet : Rn * Ld - Ln * Rd = 1) (p : ℤ) (q : ℕ) (hq : 0 < q)
    (h1 : (Ln : ℚ) / (Ld : ℚ) < (p : ℚ) / (q : ℚ))
    (h2 : (p : ℚ) / (q : ℚ) < (Rn : ℚ) / (Rd : ℚ)) :
    Ld + Rd ≤ q := by
  have hLdQ : (0 : ℚ) < (Ld : ℚ) := by exact_mod_cast hLd
  have hqQ : (0 : ℚ) < (q : ℚ) := by exact_mod_cast hq
  have hRdQ : (0 : ℚ) < (Rd : ℚ) := by exact_mod_cast hRd
  have e1 : Ln * q < p * Ld := by
    rw [div_lt_div_iff₀ hLdQ hqQ] at h1
    exact_mod_cast h1
  have e2 : p * Rd < Rn * q := by
    rw [div_lt_div_iff₀ hqQ hRdQ] at h2
    exact_mod_cast h2
  have err1 : 1 ≤ p * Ld - Ln * q := by
    have := Int.lt_iff_add_one_le.mp e1
    linarith
  have err2 : 1 ≤ Rn * q - p * Rd := by
    have := Int.lt_iff_add_one_le.mp e2
    linarith
  have key : (q : ℤ) = Ld * (Rn * q - p * Rd) + Rd * (p * Ld - Ln * q) := by
    linear_combination (-(q : ℤ)) * hdet
  have hfin : (Ld : ℤ) + Rd ≤ q := by
    calc (Ld : ℤ) + Rd = (Ld : ℤ) * 1 + (Rd : ℤ) * 1 := by ring
      _ ≤ (Ld : ℤ) * (Rn * q - p * Rd) + (Rd : ℤ) * (p * Ld - Ln * q) := by
          have hL : (0 : ℤ) ≤ (Ld : ℤ) := by positivity
          have hR : (0 : ℤ) ≤ (Rd : ℤ) := by positivity
          exact add_le_add (mul_le_mul_of_nonneg_left err2 hL)
            (mul_le_mul_of_nonneg_left err1 hR)
      _ = q := key.symm
  exact_mod_cast hfin

theorem chooseTwo_opt (x L R : ℚ) (maxd : ℕ) (hLx : L < x) (hxR : x < R)
    (gap : ∀ (p : ℤ) (q : ℕ), 0 < q → q ≤ maxd →
      (p : ℚ) / q ≤ L ∨ R ≤ (p : ℚ) / q) :
    ∀ (p : ℤ) (q : ℕ), 0 < q → q ≤ maxd →
      min (x - L) (R - x) ≤ |x - (p : ℚ) / q| := by
  intro p q hq hqm
  rcases gap p q hq hqm with hle | hge
  · rw [abs_of_pos (by linarith : (0 : ℚ) < x - (p : ℚ) / q)]
    calc min (x - L) (R - x) ≤ x - L := min_le_left _ _
      _ ≤ x - (p : ℚ) / q := by linarith
  · rw [abs_of_nonpos (by linarith : x - (p : ℚ) / q ≤ 0)]
    calc min (x - L) (R - x) ≤ R - x := min_le_right _ _
      _ ≤ -(x - (p : ℚ) / q) := by linarith

theorem den_natCast_div_le (a b maxd : ℕ) (hb : 0 < b) (hbm : b ≤ maxd) :
    (((a : ℕ) : ℚ) / ((b : ℕ) : ℚ)).den ≤ maxd := by
  have hrw : ((a : ℕ) : ℚ) / ((b : ℕ) : ℚ) = Rat.divInt (a : ℤ) (b : ℤ) := by
    rw [Rat.divInt_eq_div, Int.cast_natCast, Int.cast_natCast]
  rw [hrw]
  have h2 := Rat.den_dvd (a : ℤ) (b : ℤ)
  have h3 : (Rat.divInt (a : ℤ) (b : ℤ)).den ∣ b := by exact_mod_cast h2
  exact le_trans (Nat.le_of_dvd hb h3) hbm

theorem chooseBound_spec (x : ℚ) (maxd p0 q0 p1 q1 n d : ℕ) (hd : 0 < d)
    (hinv : sternInv x maxd p0 q0 p1 q1 n d)
    (hbr : maxd < q0 + n / d * q1) :
    (chooseBound x maxd p0 q0 p1 q1).den ≤ maxd ∧
    ∀ (p : ℤ) (q : ℕ), 0 < q → q ≤ maxd →
      |x - chooseBound x maxd p0 q0 p1 q1| ≤ |x - (p : ℚ) / q| := by
  obtain ⟨hdet, heq, hpos, hq0, hq1m, hgcd⟩ := hinv
  have hq1 : 0 < q1 := by
    rcases Nat.eq_zero_or_pos q1 with h0 | h
    · rw [h0, Nat.mul_zero, Nat.add_zero] at hbr
      omega
    · exact h
  set k := (maxd - q0) / q1 with hkdef
  set Q := q0 + k * q1 with hQdef
  set P := p0 + k * p1 with hPdef
  have hQle : Q ≤ maxd := by
    have h1 : k * q1 ≤ maxd - q0 := by
      rw [hkdef]
      exact Nat.div_mul_le_self (maxd - q0) q1
    omega
  have hQpos : 0 < Q := by
    rcases Nat.eq_zero_or_pos q0 with hq00 | hq0pos
    · have hk1 : 1 ≤ k := by
        rw [hkdef, hq00, Nat.sub_zero]
        exact (Nat.le_div_iff_mul_le hq1).mpr (by simpa using hq1m)
      have h2 : 1 * q1 ≤ k * q1 := Nat.mul_le_mul_right q1 hk1
      omega
    · omega
  have hsum : maxd < Q + q1 := by
    have h1 : q1 * k + (maxd - q0) % q1 = maxd - q0 := by
      rw [hkdef]
      exact Nat.div_add_mod _ _
    have h2 : (maxd - q0) % q1 < q1 := Nat.mod_lt _ hq1
    have h3 : q1 * k = k * q1 := Nat.mul_comm _ _
    have h6 : maxd - q0 + q0 = maxd := Nat.sub_add_cancel hq0
    rw [hQdef]
    linarith
  have hklt : k < n / d := by
    by_contra hcon
    push_neg at hcon
    have h2 : n / d * q1 ≤ k * q1 := Nat.mul_le_mul_right q1 hcon
    have h1 : k * q1 ≤ maxd - q0 := by
      rw [hkdef]
      exact Nat.div_mul_le_self _ _
    have h6 : maxd - q0 + q0 = maxd := Nat.sub_add_cancel hq0
    have h7 : q0 + n / d * q1 ≤ maxd := by linarith
    exact absurd hbr (not_lt.mpr h7)
  have hnkd : k * d < n := by
    have h1 : k + 1 ≤ n / d := hklt
    have h2 : (k + 1) * d ≤ n / d * d := Nat.mul_le_mul_right d h1
    have h3 : n / d * d ≤ n := Nat.div_mul_le_self n d
    have h4 : k * d + d ≤ n := by
      rw [add_mul, one_mul] at h2
      linarith
    linarith
  have hSpos : (0 : ℚ) < ((q1 * n + q0 * d : ℕ) : ℚ) := by exact_mod_cast hpos
  have hx : x = ((p1 * n + p0 * d : ℕ) : ℚ) / ((q1 * n + q0 * d : ℕ) : ℚ) := by
    rw [eq_div_iff hSpos.ne']
    push_cast
    push_cast at heq
    linarith
  have hQQ : (0 : ℚ) < ((Q : ℕ) : ℚ) := by exact_mod_cast hQpos
  have hq1Q : (0 : ℚ) < ((q1 : ℕ) : ℚ) := by exact_mod_cast hq1
  have hkey1 : ((p1 * n + p0 * d : ℕ) : ℤ) * ((Q : ℕ) : ℤ)
        - ((P : ℕ) : ℤ) * ((q1 * n + q0 * d : ℕ) : ℤ)
      = ((p1 : ℤ) * q0 - p0 * q1) * ((n : ℤ) - k * d) := by
    rw [hQdef, hPdef]
    push_cast
    ring
  have hkey2 : (p1 : ℤ) * ((q1 * n + q0 * d : ℕ) : ℤ)
        - ((p1 * n + p0 * d : ℕ) : ℤ) * (q1 : ℤ)
      = ((p1 : ℤ) * q0 - p0 * q1) * (d : ℤ) := by
    push_cast
    ring
  have hdetPQ : (p1 : ℤ) * Q - P * q1 = (p1 : ℤ) * q0 - p0 * q1 := by
    rw [hQdef, hPdef]
    push_cast
    ring
  have hnkdZ : (0 : ℤ) < (n : ℤ) - (k : ℤ) * d := by
    have hc : ((k * d : ℕ) : ℤ) < (n : ℤ) := by exact_mod_cast hnkd
    push_cast at hc
    linarith
  have hdZ : (0 : ℤ) < (d : ℤ) := by exact_mod_cast hd
  have hch : |x - chooseBound x maxd p0 q0 p1 q1|
      = min |x - ((p1 : ℕ) : ℚ) / ((q1 : ℕ) : ℚ)| |x - ((P : ℕ) : ℚ) / ((Q : ℕ) : ℚ)| := by
    rw [chooseBound]
    split_ifs with hif
    · exact (min_eq_left (by
        rw [abs_sub_comm x (((p1 : ℕ) : ℚ) / ((q1 : ℕ) : ℚ)),
          abs_sub_comm x (((P : ℕ) : ℚ) / ((Q : ℕ) : ℚ))]
        exact hif)).symm
    · push_neg at hif
      exact (min_eq_right (by
        rw [abs_sub_comm x (((p1 : ℕ) : ℚ) / ((q1 : ℕ) : ℚ)),
          abs_sub_comm x (((P : ℕ) : ℚ) / ((Q : ℕ) : ℚ))]
        exact hif.le)).symm
  have hden : (chooseBound x maxd p0 q0 p1 q1).den ≤ maxd := by
    rw [chooseBound]
    split_ifs
    · exact den_natCast_div_le p1 q1 maxd hq1 hq1m
    · exact den_natCast_div_le P Q maxd hQpos hQle
  refine ⟨hden, ?_⟩
  intro p q hq hqm
  rw [hch]
  rcases hdet with he | he
  · -- determinant +1: semiconvergent < x < convergent
    have hLx : ((P : ℕ) : ℚ) / ((Q : ℕ) : ℚ) < x := by
      rw [hx, div_lt_div_iff₀ hQQ hSpos]
      have hz : ((p1 * n + p0 * d : ℕ) : ℤ) * ((Q : ℕ) : ℤ)
          - ((P : ℕ) : ℤ) * ((q1 * n + q0 * d : ℕ) : ℤ) = (n : ℤ) - (k : ℤ) * d := by
        rw [hkey1, he, one_mul]
      have hZ : ((P : ℕ) : ℤ) * ((q1 * n + q0 * d : ℕ) : ℤ)
          < ((p1 * n + p0 * d : ℕ) : ℤ) * ((Q : ℕ) : ℤ) := by linarith
      exact_mod_cast hZ
    have hxR : x < ((p1 : ℕ) : ℚ) / ((q1 : ℕ) : ℚ) := by
      rw [hx, div_lt_div_iff₀ hSpos hq1Q]
      have hz : (p1 : ℤ) * ((q1 * n + q0 * d : ℕ) : ℤ)
          - ((p1 * n + p0 * d : ℕ) : ℤ) * (q1 : ℤ) = (d : ℤ) := by
        rw [hkey2, he, one_mul]
      have hZ : ((p1 * n + p0 * d : ℕ) : ℤ) * (q1 : ℤ)
          < (p1 : ℤ) * ((q1 * n + q0 * d : ℕ) : ℤ) := by linarith
      exact_mod_cast hZ
    have gap : ∀ (p' : ℤ) (q' : ℕ), 0 < q' → q' ≤ maxd →
        (p' : ℚ) / q' ≤ ((P : ℕ) : ℚ) / ((Q : ℕ) : ℚ)
          ∨ ((p1 : ℕ) : ℚ) / ((q1 : ℕ) : ℚ) ≤ (p' : ℚ) / q' := by
      intro p' q' hq' hqm'
      by_contra hcon
      push_neg at hcon
      obtain ⟨hc1, hc2⟩ := hcon
      have hdet' : (p1 : ℤ) * Q - (P : ℤ) * q1 = 1 := by rw [hdetPQ, he]
      have hge := farey_gap (P : ℤ) Q (p1 : ℤ) q1 hQpos hq1 hdet' p' q' hq'
        (by rw [Int.cast_natCast]; exact hc1) (by rw [Int.cast_natCast]; exact hc2)
      omega
    have h1 : |x - ((p1 : ℕ) : ℚ) / ((q1 : ℕ) : ℚ)|
        = ((p1 : ℕ) : ℚ) / ((q1 : ℕ) : ℚ) - x := by
      rw [abs_of_neg (by linarith)]
      ring
    have h2 : |x - ((P : ℕ) : ℚ) / ((Q : ℕ) : ℚ)|
        = x - ((P : ℕ) : ℚ) / ((Q : ℕ) : ℚ) := abs_of_pos (by linarith)
    rw [h1, h2, min_comm]
    exact chooseTwo_opt x (((P : ℕ) : ℚ) / ((Q : ℕ) : ℚ)) (((p1 : ℕ) : ℚ) / ((q1 : ℕ) : ℚ))
      maxd hLx hxR gap p q hq hqm
  · -- determinant -1: convergent < x < semiconvergent
    have hLx : ((p1 : ℕ) : ℚ) / ((q1 : ℕ) : ℚ) < x := by
      rw [hx, div_lt_div_iff₀ hq1Q hSpos]
      have hz : (p1 : ℤ) * ((q1 * n + q0 * d : ℕ) : ℤ)
          - ((p1 * n + p0 * d : ℕ) : ℤ) * (q1 : ℤ) = -(d : ℤ) := by
        rw [hkey2, he]
        ring
      have hZ : (p1 : ℤ) * ((q1 * n + q0 * d : ℕ) : ℤ)
          < ((p1 * n + p0 * d : ℕ) : ℤ) * ((q1 : ℕ) : ℤ) := by linarith
      exact_mod_cast hZ
    have hxR : x < ((P : ℕ) : ℚ) / ((Q : ℕ) : ℚ) := by
      rw [hx, div_lt_div_iff₀ hSpos hQQ]
      have hz : ((p1 * n + p0 * d : ℕ) : ℤ) * ((Q : ℕ) : ℤ)
          - ((P : ℕ) : ℤ) * ((q1 * n + q0 * d : ℕ) : ℤ) = -((n : ℤ) - (k : ℤ) * d) := by
        rw [hkey1, he]
        ring
      have hZ : ((p1 * n + p0 * d : ℕ) : ℤ) * ((Q : ℕ) : ℤ)
          < ((P : ℕ) : ℤ) * ((q1 * n + q0 * d : ℕ) : ℤ) := by linarith
      exact_mod_cast hZ
    have gap : ∀ (p' : ℤ) (q' : ℕ), 0 < q' → q' ≤ maxd →
        (p' : ℚ) / q' ≤ ((p1 : ℕ) : ℚ) / ((q1 : ℕ) : ℚ)
          ∨ ((P : ℕ) : ℚ) / ((Q : ℕ) : ℚ) ≤ (p' : ℚ) / q' := by
      intro p' q' hq' hqm'
      by_contra hcon
      push_neg at hcon
      obtain ⟨hc1, hc2⟩ := hcon
      have hdet' : (P : ℤ) * q1 - (p1 : ℤ) * Q = 1 := by
        have : (p1 : ℤ) * Q - P * q1 = -1 := by rw [hdetPQ, he]
        linarith
      have hge := farey_gap (p1 : ℤ) q1 (P : ℤ) Q hq1 hQpos hdet' p' q' hq'
        (by rw [Int.cast_natCast]; exact hc1) (by rw [Int.cast_natCast]; exact hc2)
      omega
    have h1 : |x - ((p1 : ℕ) : ℚ) / ((q1 : ℕ) : ℚ)|
        = x - ((p1 : ℕ) : ℚ) / ((q1 : ℕ) : ℚ) := abs_of_pos (by linarith)
    have h2 : |x - ((P : ℕ) : ℚ) / ((Q : ℕ) : ℚ)|
        = ((P : ℕ) : ℚ) / ((Q : ℕ) : ℚ) - x := by
      rw [abs_of_neg (by linarith)]
      ring
    rw [h1, h2]
    exact chooseTwo_opt x (((p1 : ℕ) : ℚ) / ((q1 : ℕ) : ℚ)) (((P : ℕ) : ℚ) / ((Q : ℕ) : ℚ))
      maxd hLx hxR gap p q hq hqm

theorem limit_denominator_spec (x : ℚ) (maxd : ℕ) (hx : 0 ≤ x) (hmd : 1 ≤ maxd) :
    (limit_denominator x maxd).den ≤ maxd ∧
    ∀ (p : ℤ) (q : ℕ), 0 < q → q ≤ maxd →
      |x - limit_denominator x maxd| ≤ |x - (p : ℚ) / q| := by
  by_cases hA : x.den ≤ maxd
  · rw [limit_denominator_id x maxd hA]
    refine ⟨hA, fun p q hq hqm => ?_⟩
    rw [sub_self, abs_zero]
    exact abs_nonneg _
  · push_neg at hA
    obtain ⟨P0, Q0, P1, Q1, hloop, n, d, hd, hinv, hbr⟩ :=
      sternLoop_sound maxd x hmd hA (x.den + 1) 0 1 1 0 x.num.toNat x.den
        (by omega) (sternInv_base x maxd hx hmd)
    have hval : limit_denominator x maxd = chooseBound x maxd P0 Q0 P1 Q1 := by
      rw [limit_denominator, if_neg (not_le.mpr hA), hloop]
    rw [hval]
    exact chooseBound_spec x maxd P0 Q0 P1 Q1 n d hd hinv hbr

/-- C5: `simplify_ratio` — `Fraction(width, height).limit_denominator()` with
the default limit 10^6 — returns a rational whose reduced denominator never
exceeds the limit, and whose value is at least as close to width/height as
any other fraction p/q with denominator q ≤ the limit. -/
theorem simplify_ratio_best (w h : ℕ) (hw : 0 < w) (hh : 0 < h) :
    (limit_denominator ((w : ℚ) / h) 1000000).den ≤ 1000000 ∧
    ∀ (p : ℤ) (q : ℕ), 0 < q → q ≤ 1000000 →
      |(w : ℚ) / h - limit_denominator ((w : ℚ) / h) 1000000|
        ≤ |(w : ℚ) / h - (p : ℚ) / q| :=
  limit_denominator_spec ((w : ℚ) / h) 1000000 (by positivity) (by norm_num)

/-- C5 witness: the guarantees instantiated at a 3×2 fraction. -/
theorem simplify_ratio_best_witness :
    (limit_denominator (((3 : ℕ) : ℚ) / ((2 : ℕ) : ℚ)) 1000000).den ≤ 1000000 ∧
    ∀ (p : ℤ) (q : ℕ), 0 < q → q ≤ 1000000 →
      |((3 : ℕ) : ℚ) / ((2 : ℕ) : ℚ) - limit_denominator (((3 : ℕ) : ℚ) / ((2 : ℕ) : ℚ)) 1000000|
        ≤ |((3 : ℕ) : ℚ) / ((2 : ℕ) : ℚ) - (p : ℚ) / q| :=
  simplify_ratio_best 3 2 (by norm_num) (by norm_num)

end ImageAnalyzer
